import Mathlib

/-!
Shallow embedding of `server_manager.py` (repository Mrseenz/iDeviceactivation6.0).

The script manages a PHP dev server (start/stop via a PID marker file) and an
entry in the system hosts file (add / check / remove a line).  File contents
are modelled as `List Char` (the file's bytes/characters); the hosts-file
operations below are direct translations of `is_entry_in_hosts`,
`add_to_hosts` and `remove_from_hosts`, and `stop_php_server` is modelled as a
function from an environment (marker-file state, process state) to the result
and the trace of process-management actions it performs.
-/

namespace ServerManager

/-- The whitespace characters stripped by Python's `str.strip()`. -/
def pyIsSpace (c : Char) : Bool :=
  c = ' ' || c = '\t' || c = '\n' || c = '\r' || c = '\x0b' || c = '\x0c'

/-- Python `str.strip()`: drop whitespace from both ends. -/
def pyStrip (s : List Char) : List Char :=
  ((s.dropWhile pyIsSpace).reverse.dropWhile pyIsSpace).reverse

/-- Python `str.lstrip()`: drop whitespace from the left end only. -/
def pyLStrip (s : List Char) : List Char :=
  s.dropWhile pyIsSpace

/-- Python `s.startswith("#")`. -/
def startsWithHash : List Char → Bool
  | [] => false
  | c :: _ => c = '#'

/-- `leadsWith pat s` : the list `s` begins with `pat`. -/
def leadsWith : List Char → List Char → Bool
  | [], _ => true
  | _ :: _, [] => false
  | a :: as, b :: bs => a = b && leadsWith as bs

/-- Python's `needle in hay` substring test on strings. -/
def occursIn (needle : List Char) : List Char → Bool
  | [] => leadsWith needle []
  | c :: rest => leadsWith needle (c :: rest) || occursIn needle rest

/-- Splitting a file's content into lines as Python file iteration /
`readlines()` does: each line keeps its trailing `'\n'`; a final segment
without a terminator is still a line; the empty file has no lines.
`splitLinesAux s acc` carries the (reversed) characters of the current,
not-yet-terminated line. -/
def splitLinesAux : List Char → List Char → List (List Char)
  | [], acc => if acc.isEmpty then [] else [acc.reverse]
  | c :: rest, acc =>
    if c = '\n' then (acc.reverse ++ ['\n']) :: splitLinesAux rest []
    else splitLinesAux rest (c :: acc)

def splitLines (s : List Char) : List (List Char) :=
  splitLinesAux s []

/-- The per-line condition of `server_manager.py` lines 49 and 148:
`entry_to_check in line and not line.strip().startswith("#")`. -/
def lineMatches (entry line : List Char) : Bool :=
  occursIn entry line && !(startsWithHash (pyStrip line))

/-- `is_entry_in_hosts` (lines 41-57): scan the file's lines and report
whether some line contains the entry and is not commented out. -/
def is_entry_in_hosts (entry content : List Char) : Bool :=
  (splitLines content).any (lineMatches entry)

/-- The hosts entry constant `HOSTS_ENTRY` (line 13). -/
def HOSTS_ENTRY : List Char := "127.0.0.1 albert.apple.com".toList

/-- `add_to_hosts` (lines 107-132), as a function on the file content:
no-op if the entry is already present, otherwise append `"\n" + entry + "\n"`
(line 117: `f.write(f"\n{entry_to_add}\n")`). -/
def add_to_hosts (entry content : List Char) : List Char :=
  if is_entry_in_hosts entry content then content
  else content ++ '\n' :: (entry ++ ['\n'])

/-- The rewrite loop of `remove_from_hosts` (lines 146-152): walk the lines,
skip (do not write back) each line satisfying `lineMatches`, set the
`entry_found_and_removed` flag if any line was skipped.  Returns
(`entry_found_and_removed`, lines written back, in order). -/
def removeLoop (entry : List Char) : List (List Char) → Bool × List (List Char)
  | [] => (false, [])
  | line :: rest =>
    let r := removeLoop entry rest
    if lineMatches entry line then (true, r.2) else (r.1, line :: r.2)

/-- Which user-visible report `remove_from_hosts` makes: the early
`"not found, no removal needed"` message (line 140), the `"Removed ..."`
message (line 154), or the safeguard `"was not actively present to remove"`
message (line 157). -/
inductive RemoveMsg
  | removedMsg
  | notFoundMsg
  | notActiveMsg
  deriving DecidableEq, Repr

structure RemoveResult where
  ok : Bool
  newContent : List Char
  msg : RemoveMsg
  deriving DecidableEq, Repr

/-- `remove_from_hosts` (lines 134-172) as a function on the file content:
if `is_entry_in_hosts` is false, return success without touching the file
(lines 139-141); otherwise rewrite the file keeping exactly the lines the
loop keeps and report which message was printed. -/
def remove_from_hosts (entry content : List Char) : RemoveResult :=
  if !(is_entry_in_hosts entry content) then
    ⟨true, content, .notFoundMsg⟩
  else
    let r := removeLoop entry (splitLines content)
    ⟨true, r.2.flatten, if r.1 then .removedMsg else .notActiveMsg⟩

/-- Nonempty all-digit strings parsed as a decimal `Nat`. -/
def parseNatDigits (l : List Char) : Option Nat :=
  if l.isEmpty then none
  else if l.all Char.isDigit then
    some (l.foldl (fun acc c => acc * 10 + (c.toNat - 48)) 0)
  else none

/-- Python `int(s.strip())` as used on line 253 (`pid = int(f.read().strip())`):
strip surrounding whitespace, then parse an optionally signed decimal
integer; `none` models the `ValueError` branch. -/
def pyParseInt (s : List Char) : Option Int :=
  match pyStrip s with
  | '-' :: rest => (parseNatDigits rest).map (fun n => -(n : Int))
  | '+' :: rest => (parseNatDigits rest).map (fun n => (n : Int))
  | t => (parseNatDigits t).map (fun n => (n : Int))

/-- The process-management actions `stop_php_server` can perform, in order:
`os.kill(pid, SIGTERM)` (line 261), `time.sleep(2)` (line 263), the liveness
probe `os.kill(pid, 0)` (line 268), `os.kill(pid, SIGKILL)` (line 270). -/
inductive Action
  | sigterm (pid : Int)
  | sleepSec (n : Nat)
  | probe (pid : Int)
  | sigkill (pid : Int)
  deriving DecidableEq, Repr

/-- How the OS reacts to the signals sent by one `stop_php_server` call:
the process is still alive at the post-grace-period probe (`running`), it
died after SIGTERM so the probe raises `OSError` (`deadAfterTerm`), the pid
does not exist at all so SIGTERM raises `ProcessLookupError` (`notFound`),
or sending SIGTERM raises some other exception (`termError`). -/
inductive ProcState
  | running
  | deadAfterTerm
  | notFound
  | termError
  deriving DecidableEq, Repr

/-- The environment one invocation of `stop_php_server` observes: whether the
PID marker file `PHP_SERVER_PID_FILE` exists, whether it can be read
(`IOError` branch of lines 251-256 when not), its content, and the state of
the recorded process. -/
structure StopEnv where
  markerExists : Bool
  markerReadable : Bool
  markerContent : List Char
  procState : ProcState
  deriving DecidableEq, Repr

/-- The distinct user-visible outcomes of `stop_php_server`: marker file
missing (line 245), marker unreadable or non-numeric (line 255), the
stop path completed (lines 259-278), or the generic exception handler ran
(lines 279-282). -/
inductive StopOutcome
  | stopped
  | noMarker
  | corruptMarker
  | termFailed
  deriving DecidableEq, Repr

structure StopResult where
  success : Bool
  outcome : StopOutcome
  actions : List Action
  markerDeleted : Bool
  deriving DecidableEq, Repr

/-- `stop_php_server` (lines 242-290).  Missing marker: return `False`
(line 249).  Unreadable/non-numeric marker: return `False`, marker left in
place (lines 254-256).  Otherwise send SIGTERM; `ProcessLookupError` means
already stopped (success, lines 276-278); else sleep 2 seconds, probe with
signal 0, and if the probe does not raise, send SIGKILL once (lines
259-273).  Any other exception: failure, marker kept (lines 279-282).  On
success the marker file is deleted (lines 284-289). -/
def stop_php_server (env : StopEnv) : StopResult :=
  if !env.markerExists then ⟨false, .noMarker, [], false⟩
  else if !env.markerReadable then ⟨false, .corruptMarker, [], false⟩
  else
    match pyParseInt env.markerContent with
    | none => ⟨false, .corruptMarker, [], false⟩
    | some pid =>
      match env.procState with
      | .notFound => ⟨true, .stopped, [.sigterm pid], true⟩
      | .deadAfterTerm =>
        ⟨true, .stopped, [.sigterm pid, .sleepSec 2, .probe pid], true⟩
      | .running =>
        ⟨true, .stopped, [.sigterm pid, .sleepSec 2, .probe pid, .sigkill pid], true⟩
      | .termError => ⟨false, .termFailed, [.sigterm pid], false⟩

/-! ### Basic lemmas about the string and line primitives -/

theorem leadsWith_iff (p s : List Char) : leadsWith p s = true ↔ ∃ t, s = p ++ t := by
  induction p generalizing s with
  | nil => exact ⟨fun _ => ⟨s, rfl⟩, fun _ => rfl⟩
  | cons a as ih =>
    cases s with
    | nil => simp [leadsWith]
    | cons b bs =>
      simp only [leadsWith, Bool.and_eq_true, decide_eq_true_eq, ih]
      constructor
      · rintro ⟨rfl, t, rfl⟩
        exact ⟨t, rfl⟩
      · rintro ⟨t, h⟩
        injection h with h1 h2
        exact ⟨h1.symm, t, h2⟩

theorem occursIn_iff (n h : List Char) : occursIn n h = true ↔ ∃ a b, h = a ++ n ++ b := by
  induction h with
  | nil =>
    simp only [occursIn, leadsWith_iff]
    constructor
    · rintro ⟨t, ht⟩
      rcases List.append_eq_nil.mp ht.symm with ⟨h1, h2⟩
      exact ⟨[], [], by simp [h1, h2]⟩
    · rintro ⟨a, b, hab⟩
      rcases List.append_eq_nil.mp (List.append_eq_nil.mp hab.symm).1 with ⟨h1, h2⟩
      exact ⟨[], by simp [h2]⟩
  | cons c rest ih =>
    simp only [occursIn, Bool.or_eq_true, leadsWith_iff, ih]
    constructor
    · rintro (⟨t, ht⟩ | ⟨a, b, hab⟩)
      · exact ⟨[], t, by simpa using ht⟩
      · exact ⟨c :: a, b, by simp [hab]⟩
    · rintro ⟨a, b, hab⟩
      cases a with
      | nil => exact Or.inl ⟨b, by simpa using hab⟩
      | cons x a0 =>
        injection hab with h1 h2
        exact Or.inr ⟨a0, b, h2⟩

theorem flatten_splitLinesAux (s : List Char) :
    ∀ acc, (splitLinesAux s acc).flatten = acc.reverse ++ s := by
  induction s with
  | nil => intro acc; cases acc <;> simp [splitLinesAux]
  | cons c rest ih =>
    intro acc
    by_cases h : c = '\n'
    · subst h; simp [splitLinesAux, ih]
    · simp [splitLinesAux, h, ih]

theorem flatten_splitLines (s : List Char) : (splitLines s).flatten = s := by
  simpa using flatten_splitLinesAux s []

theorem splitLinesAux_append_nl (s r : List Char) :
    ∀ acc, splitLinesAux (s ++ '\n' :: r) acc = splitLinesAux (s ++ ['\n']) acc ++ splitLines r := by
  induction s with
  | nil => intro acc; simp [splitLinesAux, splitLines]
  | cons c rest ih =>
    intro acc
    by_cases h : c = '\n' <;> simp [splitLinesAux, h, ih]

theorem splitLinesAux_single (E : List Char) (h : '\n' ∉ E) :
    ∀ acc, splitLinesAux (E ++ ['\n']) acc = [acc.reverse ++ (E ++ ['\n'])] := by
  induction E with
  | nil => intro acc; simp [splitLinesAux]
  | cons c rest ih =>
    intro acc
    have hc : ¬(c = '\n') := fun hh => h (hh ▸ List.mem_cons_self c rest)
    have ih2 := ih (fun hm => h (List.mem_cons_of_mem c hm))
    simp [splitLinesAux, hc, ih2]

theorem splitLines_single (E : List Char) (h : '\n' ∉ E) :
    splitLines (E ++ ['\n']) = [E ++ ['\n']] := by
  simpa using splitLinesAux_single E h []

theorem splitLines_append_entry (c E : List Char) (h : '\n' ∉ E) :
    splitLines (c ++ '\n' :: (E ++ ['\n'])) = splitLines (c ++ ['\n']) ++ [E ++ ['\n']] := by
  rw [splitLines, splitLinesAux_append_nl, splitLines_single E h]
  rfl

theorem dropWhile_head_false (p : Char → Bool) (s : List Char) (c : Char) (l : List Char)
    (h : s.dropWhile p = c :: l) : p c = false := by
  induction s with
  | nil => simp [List.dropWhile] at h
  | cons a as ih =>
    rw [List.dropWhile_cons] at h
    by_cases hp : p a = true
    · rw [if_pos hp] at h; exact ih h
    · rw [if_neg hp] at h
      injection h with h1 _
      subst h1
      simpa using hp

/-- Dropping trailing whitespace after dropping leading whitespace does not
change whether the string starts with a given character: `strip` and
`lstrip` agree on the head. -/
theorem startsWithHash_pyStrip (s : List Char) :
    startsWithHash (pyStrip s) = startsWithHash (pyLStrip s) := by
  unfold pyStrip pyLStrip
  cases hl : s.dropWhile pyIsSpace with
  | nil => simp [startsWithHash]
  | cons c l =>
    have hc : pyIsSpace c = false := dropWhile_head_false pyIsSpace s c l hl
    have hr : (c :: l).reverse.dropWhile pyIsSpace ≠ [] := by
      intro h0
      have hmem := List.dropWhile_eq_nil_iff.mp h0 c (by simp)
      rw [hc] at hmem
      exact Bool.false_ne_true hmem
    obtain ⟨t, ht⟩ := (List.dropWhile_suffix pyIsSpace :
      (c :: l).reverse.dropWhile pyIsSpace <:+ (c :: l).reverse)
    have hrev : c :: l = ((c :: l).reverse.dropWhile pyIsSpace).reverse ++ t.reverse := by
      have h2 := congrArg List.reverse ht
      simpa [List.reverse_append] using h2.symm
    cases hrv : ((c :: l).reverse.dropWhile pyIsSpace).reverse with
    | nil => exact absurd (List.reverse_eq_nil_iff.mp hrv) hr
    | cons c0 l0 =>
      rw [hrv] at hrev
      injection hrev with h1 _
      subst h1
      simp [startsWithHash]

theorem pyStrip_append_ws (s w : List Char) (hw : ∀ c ∈ w, pyIsSpace c = true) :
    pyStrip (s ++ w) = pyStrip s := by
  unfold pyStrip
  rw [List.dropWhile_append]
  by_cases h : (s.dropWhile pyIsSpace).isEmpty
  · rw [if_pos h]
    have h1 : w.dropWhile pyIsSpace = [] := List.dropWhile_eq_nil_iff.mpr hw
    have h2 : s.dropWhile pyIsSpace = [] := by simpa [List.isEmpty_iff] using h
    simp [h1, h2]
  · rw [if_neg h, List.reverse_append, List.dropWhile_append]
    have h1 : (w.reverse.dropWhile pyIsSpace).isEmpty = true := by
      have : w.reverse.dropWhile pyIsSpace = [] :=
        List.dropWhile_eq_nil_iff.mpr (fun c hc => hw c (List.mem_reverse.mp hc))
      simp [this]
    rw [if_pos h1]

theorem pyParseInt_append_ws (s w : List Char) (hw : ∀ c ∈ w, pyIsSpace c = true) :
    pyParseInt (s ++ w) = pyParseInt s := by
  unfold pyParseInt
  rw [pyStrip_append_ws s w hw]

/-- Appending the line terminator to an entry does not change whether its
stripped form starts with a `'#'`. -/
theorem startsWithHash_strip_append_nl (E : List Char) :
    startsWithHash (pyStrip (E ++ ['\n'])) = startsWithHash (pyStrip E) := by
  rw [startsWithHash_pyStrip, startsWithHash_pyStrip]
  unfold pyLStrip
  rw [List.dropWhile_append]
  by_cases h : (E.dropWhile pyIsSpace).isEmpty
  · rw [if_pos h]
    have h2 : E.dropWhile pyIsSpace = [] := by simpa [List.isEmpty_iff] using h
    rw [h2]
    decide
  · rw [if_neg h]
    cases hE : E.dropWhile pyIsSpace with
    | nil => simp [hE] at h
    | cons c l => simp [startsWithHash]

/-- The rewrite loop of `remove_from_hosts` keeps exactly the lines that do
not match, in order, and its flag records whether any line matched. -/
theorem removeLoop_eq (E : List Char) (ls : List (List Char)) :
    removeLoop E ls = (ls.any (lineMatches E), ls.filter (fun l => !(lineMatches E l))) := by
  induction ls with
  | nil => rfl
  | cons l rest ih =>
    by_cases h : lineMatches E l = true <;>
      simp [removeLoop, ih, h, List.filter_cons, List.any_cons]

/-! ### The claims -/

/-- Claim C3 (confirmed): `is_entry_in_hosts` returns `true` if and only if
some line of the file contains the entry as a substring and that line does
not start with `'#'` after trimming leading whitespace.  (The code strips
both ends before the `'#'` test, which agrees on the head with stripping
the left end only.) -/
theorem C3_isPresent_iff (E content : List Char) :
    is_entry_in_hosts E content = true ↔
      ∃ l ∈ splitLines content,
        (∃ a b, l = a ++ E ++ b) ∧ startsWithHash (pyLStrip l) = false := by
  unfold is_entry_in_hosts
  rw [List.any_eq_true]
  constructor
  · rintro ⟨l, hl, hm⟩
    rw [lineMatches, Bool.and_eq_true, Bool.not_eq_true'] at hm
    refine ⟨l, hl, (occursIn_iff E l).mp hm.1, ?_⟩
    rw [← startsWithHash_pyStrip]
    exact hm.2
  · rintro ⟨l, hl, hocc, hhash⟩
    refine ⟨l, hl, ?_⟩
    rw [lineMatches, Bool.and_eq_true, Bool.not_eq_true']
    refine ⟨(occursIn_iff E l).mpr hocc, ?_⟩
    rw [startsWithHash_pyStrip]
    exact hhash

/-- Claim C2, counterexample: the claim promises that a line for a different
hostname that merely contains the entry as a substring is left byte-for-byte
unchanged, but `remove_from_hosts` matches by substring (line 148), so on the
file `"127.0.0.1 albert.apple.com.evil\n"` removing the entry
`"127.0.0.1 albert.apple.com"` deletes that unrelated line, leaving an empty
file. -/
theorem C2_counterexample :
    (remove_from_hosts HOSTS_ENTRY "127.0.0.1 albert.apple.com.evil\n".toList).newContent = []
      ∧ "127.0.0.1 albert.apple.com.evil\n".toList ≠ ([] : List Char) := by
  exact ⟨rfl, by decide⟩

/-- Claim C2 as amended (proved): `remove_from_hosts` returns success and
rewrites the file to exactly the lines that do NOT satisfy the code's match
condition, i.e. it removes precisely the non-commented lines containing the
entry as a substring, and the kept lines are a sublist of the original lines
(byte-for-byte unchanged, in their original order). -/
theorem C2_remove_filter (E content : List Char) :
    (remove_from_hosts E content).ok = true ∧
    (remove_from_hosts E content).newContent =
      ((splitLines content).filter (fun l => !(lineMatches E l))).flatten ∧
    List.Sublist ((splitLines content).filter (fun l => !(lineMatches E l)))
      (splitLines content) := by
  refine ⟨?_, ?_, List.filter_sublist _⟩
  · unfold remove_from_hosts
    by_cases h : is_entry_in_hosts E content = true <;> simp [h]
  · unfold remove_from_hosts
    by_cases h : is_entry_in_hosts E content = true
    · simp [h, removeLoop_eq]
    · have h0 : is_entry_in_hosts E content = false := by
        cases hb : is_entry_in_hosts E content
        · rfl
        · exact absurd hb h
      have h1 : (splitLines content).any (lineMatches E) = false := h0
      have hall : ∀ l ∈ splitLines content, lineMatches E l = false := by
        intro l hl
        cases hb : lineMatches E l
        · rfl
        · exact absurd (List.any_eq_true.mpr ⟨l, hl, hb⟩) (by simp [h1])
      have hfil : (splitLines content).filter (fun l => !(lineMatches E l)) = splitLines content :=
        List.filter_eq_self.mpr (fun l hl => by rw [hall l hl]; rfl)
      rw [hfil, flatten_splitLines]
      simp [h0]

/-- Claim C7 (confirmed): when the entry occurs in the file only inside
commented lines (every line containing it starts with `'#'` after trimming
leading whitespace), `remove_from_hosts` reports success with the
"not found, no removal needed" message — distinct from the "Removed" message,
so the caller is informed that no active entry was removed — and the file
content is byte-identical. -/
theorem C7_remove_commented_only (E content : List Char)
    (h : ∀ l ∈ splitLines content,
      (∃ a b, l = a ++ E ++ b) → startsWithHash (pyLStrip l) = true) :
    remove_from_hosts E content = ⟨true, content, RemoveMsg.notFoundMsg⟩ := by
  have hno : is_entry_in_hosts E content = false := by
    unfold is_entry_in_hosts
    rw [List.any_eq_false]
    intro l hl
    cases hocc : occursIn E l
    · simp [lineMatches, hocc]
    · have hc := h l hl ((occursIn_iff E l).mp hocc)
      rw [← startsWithHash_pyStrip] at hc
      simp [lineMatches, hocc, hc]
  unfold remove_from_hosts
  simp [hno]

/-- Witness for C7 at a concrete input: a hosts file whose only line is the
commented-out entry. -/
theorem C7_witness :
    remove_from_hosts HOSTS_ENTRY "# 127.0.0.1 albert.apple.com\n".toList =
      ⟨true, "# 127.0.0.1 albert.apple.com\n".toList, RemoveMsg.notFoundMsg⟩ := by
  apply C7_remove_commented_only
  intro l hl _
  have hs : splitLines "# 127.0.0.1 albert.apple.com\n".toList =
      ["# 127.0.0.1 albert.apple.com\n".toList] := by rfl
  rw [hs] at hl
  have hl2 : l = "# 127.0.0.1 albert.apple.com\n".toList := by simpa using hl
  subst hl2
  decide

/-- Claim C6, counterexample: for the entry `"#x"` on an empty file, the
appended line `"\n#x\n"` is itself a comment line, so `is_entry_in_hosts`
remains false and a second `add_to_hosts` appends again: calling add twice
yields `"\n#x\n\n#x\n"`, not the single-add result `"\n#x\n"`. -/
theorem C6_counterexample :
    add_to_hosts "#x".toList (add_to_hosts "#x".toList []) ≠ add_to_hosts "#x".toList [] := by
  decide

/-- Claim C6 as amended (proved): for every entry that is a single
non-comment line — it contains no newline and its stripped form does not
start with `'#'` (every well-formed hosts entry satisfies this) —
`add_to_hosts` is idempotent on the file content. -/
theorem C6_add_idempotent (E content : List Char)
    (hnl : '\n' ∉ E) (hcm : startsWithHash (pyStrip E) = false) :
    add_to_hosts E (add_to_hosts E content) = add_to_hosts E content := by
  by_cases h : is_entry_in_hosts E content = true
  · simp [add_to_hosts, h]
  · have e1 : add_to_hosts E content = content ++ '\n' :: (E ++ ['\n']) := by
      simp [add_to_hosts, h]
    have h2 : is_entry_in_hosts E (content ++ '\n' :: (E ++ ['\n'])) = true := by
      unfold is_entry_in_hosts
      rw [List.any_eq_true]
      refine ⟨E ++ ['\n'], ?_, ?_⟩
      · rw [splitLines_append_entry content E hnl]
        simp
      · rw [lineMatches, Bool.and_eq_true, Bool.not_eq_true']
        refine ⟨(occursIn_iff E (E ++ ['\n'])).mpr ⟨[], ['\n'], by simp⟩, ?_⟩
        rw [startsWithHash_strip_append_nl]
        exact hcm
    rw [e1]
    simp [add_to_hosts, h2]

/-- Witness for C6 at a concrete input: adding the real hosts entry twice to
an empty file equals adding it once. -/
theorem C6_witness :
    add_to_hosts HOSTS_ENTRY (add_to_hosts HOSTS_ENTRY []) = add_to_hosts HOSTS_ENTRY [] :=
  C6_add_idempotent HOSTS_ENTRY [] (by decide) (by decide)

/-- Claim C8 (confirmed): on the file
`"1.2.3.4 other.host\n# 127.0.0.1 albert.apple.com\n"` the entry
`"127.0.0.1 albert.apple.com"` is not reported present (its only occurrence
is commented), and adding it appends the active entry at the end without
duplicating or disturbing the commented line: the result splits into the two
original lines in order, a blank line, and the new entry line. -/
theorem C8_scenario :
    is_entry_in_hosts HOSTS_ENTRY
        "1.2.3.4 other.host\n# 127.0.0.1 albert.apple.com\n".toList = false ∧
    add_to_hosts HOSTS_ENTRY "1.2.3.4 other.host\n# 127.0.0.1 albert.apple.com\n".toList =
      "1.2.3.4 other.host\n# 127.0.0.1 albert.apple.com\n\n127.0.0.1 albert.apple.com\n".toList ∧
    splitLines (add_to_hosts HOSTS_ENTRY
        "1.2.3.4 other.host\n# 127.0.0.1 albert.apple.com\n".toList) =
      ["1.2.3.4 other.host\n".toList, "# 127.0.0.1 albert.apple.com\n".toList,
        "\n".toList, "127.0.0.1 albert.apple.com\n".toList] :=
  ⟨rfl, rfl, rfl⟩

/-- Claim C10 (confirmed): when the entry is not present as an active line,
`add_to_hosts` appends exactly one newline, then the entry, then a newline
(line 117), so the original bytes are an exact prefix of the result; and for
a single-line entry the result's lines are the lines of the
newline-terminated original content followed by the entry as a line of its
own — in particular, when the original content already ended with a newline,
a blank line separates it from the new entry line. -/
theorem C10_add_appends (E content : List Char)
    (h : is_entry_in_hosts E content = false) :
    add_to_hosts E content = content ++ '\n' :: (E ++ ['\n']) ∧
    ('\n' ∉ E →
      splitLines (add_to_hosts E content) = splitLines (content ++ ['\n']) ++ [E ++ ['\n']] ∧
      (∀ c0, content = c0 ++ ['\n'] →
        splitLines (add_to_hosts E content) = splitLines content ++ [['\n'], E ++ ['\n']])) := by
  have e1 : add_to_hosts E content = content ++ '\n' :: (E ++ ['\n']) := by
    simp [add_to_hosts, h]
  refine ⟨e1, fun hnl => ⟨?_, ?_⟩⟩
  · rw [e1, splitLines_append_entry content E hnl]
  · intro c0 hc0
    rw [e1, splitLines_append_entry content E hnl, hc0]
    have ha : (c0 ++ ['\n']) ++ ['\n'] = c0 ++ '\n' :: ['\n'] := by simp
    rw [ha, splitLines, splitLinesAux_append_nl, ← splitLines]
    simp [splitLines, splitLinesAux]

/-- Witness for C10 at a concrete input: a one-line, newline-terminated file
that does not contain the hosts entry. -/
theorem C10_witness :
    add_to_hosts HOSTS_ENTRY "1.2.3.4 other.host\n".toList =
        "1.2.3.4 other.host\n".toList ++ '\n' :: (HOSTS_ENTRY ++ ['\n']) ∧
    ('\n' ∉ HOSTS_ENTRY →
      splitLines (add_to_hosts HOSTS_ENTRY "1.2.3.4 other.host\n".toList) =
        splitLines ("1.2.3.4 other.host\n".toList ++ ['\n']) ++ [HOSTS_ENTRY ++ ['\n']] ∧
      (∀ c0, "1.2.3.4 other.host\n".toList = c0 ++ ['\n'] →
        splitLines (add_to_hosts HOSTS_ENTRY "1.2.3.4 other.host\n".toList) =
          splitLines "1.2.3.4 other.host\n".toList ++ [['\n'], HOSTS_ENTRY ++ ['\n']])) :=
  C10_add_appends HOSTS_ENTRY "1.2.3.4 other.host\n".toList (by decide)

/-- Claim C1, counterexample: with the marker (PID) file absent,
`stop_php_server` returns `False` (line 249) — the no-marker case is a
failure return, not a success report as the claim states (the CLI layer then
prints "Server may not have stopped cleanly"). -/
theorem C1_counterexample :
    stop_php_server ⟨false, true, [], ProcState.running⟩ =
      ⟨false, StopOutcome.noMarker, [], false⟩ := rfl

/-- Claim C1 as amended (proved): for every invocation of `stop_php_server`
when the marker file does not exist — in particular a second stop right
after one that deleted the marker — the operation returns the failure value
`False` with the distinct no-marker outcome, sends no signals and deletes
nothing; a missing marker is reported as a failure, not as success. -/
theorem C1_no_marker_fails (env : StopEnv) (h : env.markerExists = false) :
    stop_php_server env = ⟨false, StopOutcome.noMarker, [], false⟩ := by
  unfold stop_php_server
  rw [h]
  rfl

/-- Witness for C1 at a concrete input: marker absent, a process running. -/
theorem C1_witness :
    stop_php_server ⟨false, true, "99".toList, ProcState.running⟩ =
      ⟨false, StopOutcome.noMarker, [], false⟩ :=
  C1_no_marker_fails ⟨false, true, "99".toList, ProcState.running⟩ rfl

/-- Claim C4 (confirmed): in every `stop_php_server` invocation, whenever a
SIGKILL is sent, the whole action trace is exactly
SIGTERM → sleep 2 seconds → liveness probe → SIGKILL: the forced kill
happens only after the graceful signal, the fixed 2-second grace period and
a probe that found the process alive, and it happens exactly once, with no
further retries. -/
theorem C4_sigkill_escalation (env : StopEnv) (pid : Int)
    (h : Action.sigkill pid ∈ (stop_php_server env).actions) :
    (stop_php_server env).actions =
      [Action.sigterm pid, Action.sleepSec 2, Action.probe pid, Action.sigkill pid] := by
  obtain ⟨me, mr, mc, ps⟩ := env
  cases me <;> cases mr <;> cases hp : pyParseInt mc <;> cases ps <;>
    simp_all [stop_php_server]

/-- Witness for C4 at a concrete input: marker holding pid 42, process still
alive at the probe. -/
theorem C4_witness :
    (stop_php_server ⟨true, true, "42".toList, ProcState.running⟩).actions =
      [Action.sigterm 42, Action.sleepSec 2, Action.probe 42, Action.sigkill 42] :=
  C4_sigkill_escalation ⟨true, true, "42".toList, ProcState.running⟩ 42 (by decide)

/-- Claim C5 (confirmed): when the marker file exists but is unreadable or
its content does not parse as an integer, `stop_php_server` fails (returns
`False` through the corrupt-marker branch, lines 254-256), performs no
process signalling, and does not delete the marker file. -/
theorem C5_corrupt_marker (env : StopEnv)
    (hex : env.markerExists = true)
    (hbad : env.markerReadable = false ∨ pyParseInt env.markerContent = none) :
    stop_php_server env = ⟨false, StopOutcome.corruptMarker, [], false⟩ := by
  obtain ⟨me, mr, mc, ps⟩ := env
  rcases hbad with hb | hb <;>
    simp_all [stop_php_server]

/-- Witness for C5 at a concrete input: a marker whose content is the
non-numeric string "oops". -/
theorem C5_witness :
    stop_php_server ⟨true, true, "oops".toList, ProcState.running⟩ =
      ⟨false, StopOutcome.corruptMarker, [], false⟩ :=
  C5_corrupt_marker ⟨true, true, "oops".toList, ProcState.running⟩ rfl (Or.inr rfl)

/-- Claim C9 (confirmed): the marker content is parsed with surrounding
whitespace trimmed before integer conversion — appending whitespace (e.g. a
trailing newline or spaces) never changes the parse — and any string that
parses as an integer, including a negative one, is accepted and used as the
target of the first signal sent. -/
theorem C9_marker_parsing (s w : List Char) (env : StopEnv) (n : Int)
    (hw : ∀ c ∈ w, pyIsSpace c = true)
    (hex : env.markerExists = true) (hr : env.markerReadable = true)
    (hp : pyParseInt env.markerContent = some n) :
    pyParseInt (s ++ w) = pyParseInt s ∧
    (stop_php_server env).actions.head? = some (Action.sigterm n) := by
  refine ⟨pyParseInt_append_ws s w hw, ?_⟩
  obtain ⟨me, mr, mc, ps⟩ := env
  cases me
  · exact absurd hex (by simp)
  · cases mr
    · exact absurd hr (by simp)
    · simp only [stop_php_server] at hp ⊢
      rw [hp]
      cases ps <;> rfl

/-- Witness for C9 at a concrete input: the negative pid string "-5" with a
trailing newline parses the same as "-5", and the SIGTERM target is -5. -/
theorem C9_witness :
    pyParseInt ("-5".toList ++ "\n".toList) = pyParseInt "-5".toList ∧
    (stop_php_server ⟨true, true, "-5\n".toList, ProcState.running⟩).actions.head? =
      some (Action.sigterm (-5)) :=
  C9_marker_parsing "-5".toList "\n".toList ⟨true, true, "-5\n".toList, ProcState.running⟩
    (-5) (by decide) rfl rfl (by decide)

end ServerManager
